import Mathlib

/-!
Shallow embedding of the client-side security/resilience core of L3ARN-LABS:
`frontend/src/utils/security.ts` (SecurityManager) and
`frontend/src/services/secureApi.ts` (SecureApiClient, ApiError).

Strings are modelled as `List Char` (`Chars`); JS `charCodeAt` is modelled by
`Char.toNat`, which agrees with UTF-16 code units on the Basic Multilingual
Plane (all inputs considered here are ASCII).  JS 32-bit integer coercion
(`x & x`, `x << 5`) is modelled explicitly with `toInt32` over `Int`.
Stateful pieces (localStorage, the rate-limit map, the response cache) are
modelled by explicit state passing over total maps `String → Option _`.
-/

namespace L3arn

abbrev Chars := List Char

/-- ASCII lowering of one character, modelling `String.prototype.toLowerCase`
and the `i` regex flag for the ASCII-only literals used by the source. -/
def lowerAsciiChar (c : Char) : Char :=
  if 'A' ≤ c ∧ c ≤ 'Z' then Char.ofNat (c.toNat + 32) else c

/-- ASCII lowering of a string. -/
def lowerAscii (s : Chars) : Chars := s.map lowerAsciiChar

/-- JS regex word character class `\w = [A-Za-z0-9_]`. -/
def isWordChar (c : Char) : Bool :=
  ('a' ≤ c && c ≤ 'z') || ('A' ≤ c && c ≤ 'Z') || ('0' ≤ c && c ≤ '9') || c = '_'

/-- Does the subject begin with the pattern (exact match)? -/
def charsBeginWith : Chars → Chars → Bool
  | [], _ => true
  | _ :: _, [] => false
  | p :: ps, c :: cs => p = c && charsBeginWith ps cs

/-- Does the subject begin with the pattern, ASCII case-insensitively? -/
def charsBeginWithCI : Chars → Chars → Bool
  | [], _ => true
  | _ :: _, [] => false
  | p :: ps, c :: cs => lowerAsciiChar p = lowerAsciiChar c && charsBeginWithCI ps cs

/-- Substring containment, modelling `String.prototype.includes`. -/
def hasSubstring (pat : Chars) : Chars → Bool
  | [] => charsBeginWith pat []
  | c :: cs => charsBeginWith pat (c :: cs) || hasSubstring pat cs

/-- JS `ToInt32`: reduce an integer to the signed 32-bit range. -/
def toInt32 (n : Int) : Int :=
  let m := n % 4294967296
  if m < 2147483648 then m else m - 4294967296

/-- One step of `SecurityManager.generateChecksum`:
`hash = ((hash << 5) - hash) + char; hash = hash & hash`.
`hash << 5` coerces to Int32 (wrapping), the sum is exact, and `hash & hash`
coerces the result back to Int32. -/
def checksumStep (hash : Int) (c : Char) : Int :=
  toInt32 (toInt32 (hash * 32) - hash + c.toNat)

/-- The 32-bit rolling hash accumulated by `generateChecksum` (before the
base-36 rendering). -/
def checksumHash (s : Chars) : Int := s.foldl checksumStep 0

/-- Digit characters for `Number.prototype.toString(36)`: `0-9` then `a-z`. -/
def base36DigitChar (n : Nat) : Char :=
  if n < 10 then Char.ofNat (48 + n) else Char.ofNat (87 + n)

/-- Base-36 digits of a natural number, most significant first (fuel-based;
the fuel `n + 1` always suffices since `n / 36 < n` for `n ≥ 1`). -/
def natToBase36Aux : Nat → Nat → Chars → Chars
  | 0, _, acc => acc
  | fuel + 1, n, acc =>
    if n = 0 then acc
    else natToBase36Aux fuel (n / 36) (base36DigitChar (n % 36) :: acc)

/-- Base-36 rendering of a natural number. -/
def natToBase36 (n : Nat) : Chars :=
  if n = 0 then ['0'] else natToBase36Aux (n + 1) n []

/-- Base-36 rendering of an integer, modelling `hash.toString(36)` (negative
values render with a leading minus sign). -/
def intToBase36 (i : Int) : Chars :=
  if i < 0 then '-' :: natToBase36 i.natAbs else natToBase36 i.toNat

/-- Embedding of `SecurityManager.generateChecksum`: the non-cryptographic rolling hash
used as an integrity checksum on secure-storage records. -/
def generateChecksum (s : Chars) : Chars := intToBase36 (checksumHash s)

/-- One persisted secure-storage record: the source stores
`JSON.stringify({value, timestamp, checksum})` under the key; the JSON
round-trip is the identity on such records, so the record is kept
structurally. -/
structure StoredRecord where
  value : Chars
  timestamp : Nat
  checksum : Chars
deriving DecidableEq

/-- The browser `localStorage`, keyed by string. -/
abbrev LocalStorage := String → Option StoredRecord

/-- Pointwise map update. -/
def storeUpdate (st : LocalStorage) (k : String) (v : Option StoredRecord) : LocalStorage :=
  fun q => if q = k then v else st q

/-- A `localStorage` with no records. -/
def emptyStore : LocalStorage := fun _ => none

namespace SecureStorage

/-- Embedding of `secureStorage.setItem`: wraps the value with the current time and its
checksum before persisting.  (The source swallows quota errors from
`localStorage.setItem`; the model assumes the write succeeds.) -/
def setItem (st : LocalStorage) (now : Nat) (key : String) (value : Chars) : LocalStorage :=
  storeUpdate st key (some ⟨value, now, generateChecksum value⟩)

/-- Embedding of `secureStorage.removeItem`. -/
def removeItem (st : LocalStorage) (key : String) : LocalStorage :=
  storeUpdate st key none

/-- Embedding of `secureStorage.getItem`: recomputes the checksum (delete and return null
on mismatch), then checks staleness strictly beyond 24 hours (delete and
return null).  `Date.now() - data.timestamp > 86400000` is modelled with
truncated `Nat` subtraction, which agrees with JS: a future-stamped record
gives a negative (resp. zero) difference, in both cases not `> 86400000`. -/
def getItem (st : LocalStorage) (now : Nat) (key : String) : Option Chars × LocalStorage :=
  match st key with
  | none => (none, st)
  | some r =>
    if generateChecksum r.value ≠ r.checksum then (none, removeItem st key)
    else if 86400000 < now - r.timestamp then (none, removeItem st key)
    else (some r.value, st)

end SecureStorage

/-- One per-endpoint window of `SecurityManager.requestCounts`. -/
structure RateWindow where
  count : Nat
  resetTime : Nat
deriving DecidableEq

/-- The `requestCounts` map of the rate limiter. -/
abbrev RLState := String → Option RateWindow

/-- Pointwise rate-limit map update. -/
def rlUpdate (st : RLState) (k : String) (w : RateWindow) : RLState :=
  fun q => if q = k then some w else st q

/-- A rate-limit map with no windows. -/
def emptyRL : RLState := fun _ => none

/-- Embedding of `SecurityManager.isRequestAllowed`: fresh window (count 1, allow) when the
key is absent or `now > resetTime`; deny without touching the window once
`count ≥ maxRequests`; otherwise increment and allow. -/
def isRequestAllowed (st : RLState) (now : Nat) (endpoint : String)
    (maxRequests windowMs : Nat) : Bool × RLState :=
  match st endpoint with
  | none => (true, rlUpdate st endpoint ⟨1, now + windowMs⟩)
  | some w =>
    if w.resetTime < now then (true, rlUpdate st endpoint ⟨1, now + windowMs⟩)
    else if maxRequests ≤ w.count then (false, st)
    else (true, rlUpdate st endpoint ⟨w.count + 1, w.resetTime⟩)

/-- Iterated calls to `isRequestAllowed` for one endpoint at the given
timestamps, collecting the verdicts. -/
def runCalls (ep : String) (maxRequests windowMs : Nat) : RLState → List Nat → List Bool × RLState
  | st, [] => ([], st)
  | st, t :: ts =>
    let r := isRequestAllowed st t ep maxRequests windowMs
    let rest := runCalls ep maxRequests windowMs r.2 ts
    (r.1 :: rest.1, rest.2)

/-- Characters removed by the first `sanitizeText` replacement,
`[\x00-\x08\x0B\x0C\x0E-\x1F\x7F]` (note: tab 0x09, LF 0x0A and CR 0x0D are
not in the class). -/
def strippedControl (c : Char) : Bool :=
  c.toNat ≤ 8 || c.toNat = 11 || c.toNat = 12 ||
    (14 ≤ c.toNat && c.toNat ≤ 31) || c.toNat = 127

/-- Global replacement of the control-character class with the empty string. -/
def stripControls (s : Chars) : Chars := s.filter (fun c => !strippedControl c)

/-- The JS whitespace set recognised by `String.prototype.trim` and the regex
class `\s`. -/
def jsWhitespaceChar (c : Char) : Bool :=
  c.toNat = 9 || c.toNat = 10 || c.toNat = 11 || c.toNat = 12 || c.toNat = 13 ||
  c.toNat = 32 || c.toNat = 160 || c.toNat = 5760 ||
  (8192 ≤ c.toNat && c.toNat ≤ 8202) || c.toNat = 8232 || c.toNat = 8233 ||
  c.toNat = 8239 || c.toNat = 8287 || c.toNat = 12288 || c.toNat = 65279

/-- Embedding of `String.prototype.trim`. -/
def jsTrim (s : Chars) : Chars :=
  ((s.dropWhile jsWhitespaceChar).reverse.dropWhile jsWhitespaceChar).reverse

def scriptOpenLit : Chars := ['<', 's', 'c', 'r', 'i', 'p', 't']

def scriptCloseLit : Chars := ['<', '/', 's', 'c', 'r', 'i', 'p', 't', '>']

/-- Does `<script\b` (case-insensitive) match at the head of `s`? -/
def scriptOpenAt (s : Chars) : Bool :=
  charsBeginWithCI scriptOpenLit s &&
    (match s.drop 7 with
     | [] => true
     | c :: _ => !isWordChar c)

/-- Scan for the first case-insensitive occurrence of `</script>` and return
the remainder after it.  This is where `[^<]*(?:(?!<\/script>)<[^<]*)*` lands:
the greedy chunks stop exactly at each `<`, and every occurrence of
`</script>` starts with `<`, so the leftmost occurrence terminates the
match. -/
def findScriptClose : Chars → Option Chars
  | [] => none
  | c :: cs =>
    if charsBeginWithCI scriptCloseLit (c :: cs) then some ((c :: cs).drop 9)
    else findScriptClose cs

/-- Global replacement of
`/<script\b[^<]*(?:(?!<\/script>)<[^<]*)*<\/script>/gi` with the empty
string, scanning left to right and resuming after each match.  Fuel-based:
every step consumes at least one character, so `s.length` fuel is exact. -/
def removeScriptsAux : Nat → Chars → Chars
  | 0, s => s
  | _ + 1, [] => []
  | fuel + 1, c :: cs =>
    if scriptOpenAt (c :: cs) then
      match findScriptClose ((c :: cs).drop 7) with
      | some rest => removeScriptsAux fuel rest
      | none => c :: removeScriptsAux fuel cs
    else c :: removeScriptsAux fuel cs

def removeScripts (s : Chars) : Chars := removeScriptsAux s.length s

/-- Global case-insensitive replacement of a (non-empty) literal pattern with
the empty string, scanning left to right and resuming after each match. -/
def removeAllCIAux (pat : Chars) : Nat → Chars → Chars
  | 0, s => s
  | _ + 1, [] => []
  | fuel + 1, c :: cs =>
    if charsBeginWithCI pat (c :: cs) then removeAllCIAux pat fuel ((c :: cs).drop pat.length)
    else c :: removeAllCIAux pat fuel cs

def removeAllCI (pat : Chars) (s : Chars) : Chars := removeAllCIAux pat s.length s

/-- The `SecurityConfig` record, with the fields `sanitizeText`/`validateFile` read. -/
structure SecurityConfig where
  maxInputLength : Nat
  allowedFileTypes : List Chars
  maxFileSize : Nat

/-- Embedding of `DEFAULT_SECURITY_CONFIG`. -/
def DEFAULT_SECURITY_CONFIG : SecurityConfig where
  maxInputLength := 10000
  allowedFileTypes :=
    [".jpg".data, ".jpeg".data, ".png".data, ".gif".data, ".pdf".data,
     ".txt".data, ".md".data, ".py".data, ".js".data, ".ts".data]
  maxFileSize := 10485760

/-- A JS argument that may or may not be a string, for the dynamic type check
at the top of `sanitizeText`. -/
inductive JSInput where
  | str (s : Chars)
  | nonString

/-- A thrown JS `Error`-family value, identified by its `name` and `message`
(`new TypeError(m)` has name `TypeError`, `new Error(m)` has name `Error`,
an abort rejection has name `AbortError`). -/
structure JsErrorVal where
  name : String
  message : String
deriving DecidableEq

/-- The pure string pipeline of `sanitizeText`: strip the control class, trim
and truncate to `maxInputLength`, then remove script blocks and the three
URI-scheme prefixes, in source order. -/
def sanitizeTextChars (cfg : SecurityConfig) (input : Chars) : Chars :=
  let s1 := stripControls input
  let s2 := (jsTrim s1).take cfg.maxInputLength
  let s3 := removeScripts s2
  let s4 := removeAllCI "javascript:".data s3
  let s5 := removeAllCI "data:".data s4
  removeAllCI "vbscript:".data s5

/-- Embedding of `SecurityManager.sanitizeText`, including the dynamic type check: a
non-string argument raises a plain Error reading "Input must be a string". -/
def sanitizeText (cfg : SecurityConfig) (input : JSInput) : Except JsErrorVal Chars :=
  match input with
  | .nonString => .error ⟨"Error", "Input must be a string"⟩
  | .str s => .ok (sanitizeTextChars cfg s)

/-- Characters removed by the first replacement of `sanitizeFilename`,
`[\/\\<>:"|?*]`. -/
def dangerousFilenameChar (c : Char) : Bool :=
  c = '/' || c = '\\' || c = '<' || c = '>' || c = ':' || c = '"' ||
  c = '|' || c = '?' || c = '*'

/-- The class `[\s.]` of the trimming regex in `sanitizeFilename`. -/
def trimDotSpaceChar (c : Char) : Bool := jsWhitespaceChar c || c = '.'

/-- Replacement of `/^[\s.]+|[\s.]+$/g` with the empty string. -/
def jsTrimDotsSpaces (s : Chars) : Chars :=
  ((s.dropWhile trimDotSpaceChar).reverse.dropWhile trimDotSpaceChar).reverse

/-- Embedding of `String.prototype.split('.')`: splits at every dot, keeping empty pieces;
the empty string yields `[""]`. -/
def splitOnDot : Chars → List Chars
  | [] => [[]]
  | c :: cs =>
    if c = '.' then [] :: splitOnDot cs
    else
      match splitOnDot cs with
      | [] => [[c]]
      | p :: ps => (c :: p) :: ps

/-- Embedding of `Array.prototype.join('.')`. -/
def joinDot : List Chars → Chars
  | [] => []
  | [p] => p
  | p :: q :: ps => p ++ '.' :: joinDot (q :: ps)

/-- Embedding of `s.slice(0, e)` with JS semantics for the end index: a negative `e`
counts from the end of the string (clamped at 0). -/
def jsSliceEnd (s : Chars) (e : Int) : Chars :=
  if e < 0 then s.take (s.length - e.natAbs) else s.take e.toNat

/-- The final fallback of `sanitizeFilename` (`sanitized` or the literal name `file`): the empty
string is falsy, so it is replaced by the literal name `file`. -/
def fallbackIfEmpty (s : Chars) : Chars :=
  if s = [] then "file".data else s

/-- Embedding of `SecurityManager.sanitizeFilename`: strip path separators and dangerous
characters, trim leading/trailing dots and whitespace, cap over-long names
(over 255) to `name.slice(0, 250 - extension.length) + extension`, and fall
back to the literal name `file` when the result is empty. -/
def sanitizeFilename (filename : Chars) : Chars :=
  let s1 := filename.filter (fun c => !dangerousFilenameChar c)
  let s2 := jsTrimDotsSpaces s1
  let s3 :=
    if 255 < s2.length then
      let parts := splitOnDot s2
      if 1 < parts.length then
        let ext := '.' :: parts.getLastD []
        jsSliceEnd (joinDot parts.dropLast) (250 - (ext.length : Int)) ++ ext
      else
        jsSliceEnd (joinDot parts) 250
    else s2
  fallbackIfEmpty s3

/-- The `extension` local used by the length cap of `sanitizeFilename`:
`parts.length > 1 ? '.' + parts.pop() : ''`, computed on the stripped and
trimmed name. -/
def capExtensionPart (s2 : Chars) : Chars :=
  let parts := splitOnDot s2
  if 1 < parts.length then '.' :: parts.getLastD [] else []

/-- A browser `File` as far as `validateFile` reads it. -/
structure MockFile where
  name : Chars
  size : Nat
deriving DecidableEq

/-- The two rejection messages of `validateFile` (the source interpolates
`maxFileSize / (1024*1024)` resp. the extension into an English sentence;
the discriminating content is kept structurally). -/
inductive FileValidationError where
  | sizeExceeded (maxFileSize : Nat)
  | typeNotAllowed (extension : Chars)
deriving DecidableEq

/-- The result object `{valid, error?, sanitizedName?}` of `validateFile`. -/
structure FileValidationResult where
  valid : Bool
  error : Option FileValidationError
  sanitizedName : Option Chars
deriving DecidableEq

/-- The extension `validateFile` derives:
`'.' + file.name.split('.').pop()?.toLowerCase()`. -/
def fileExtension (name : Chars) : Chars :=
  '.' :: lowerAscii ((splitOnDot name).getLastD [])

/-- Embedding of `SecurityManager.validateFile`: size ceiling first, then extension
allow-list, then filename sanitization on success. -/
def validateFile (cfg : SecurityConfig) (file : MockFile) : FileValidationResult :=
  if cfg.maxFileSize < file.size then
    ⟨false, some (.sizeExceeded cfg.maxFileSize), none⟩
  else
    let extension := fileExtension file.name
    if extension ∈ cfg.allowedFileTypes then
      ⟨true, none, some (sanitizeFilename file.name)⟩
    else
      ⟨false, some (.typeNotAllowed extension), none⟩

/-! The `SecureApiClient` of `secureApi.ts`. -/

/-- The error-body shape the client consumes,
`{message?, detail?, code?}`; `payload` stands for the rest of the parsed
JSON value (returned opaquely by `parseResponse` on success). -/
structure JsBody where
  message : Option String
  detail : Option String
  code : Option String
  payload : String
deriving DecidableEq

/-- What ends up in `ApiError.details`: the parsed error body, the
the fallback object built from the status text (or "Unknown error"), or the message of
a caught non-`ApiError` exception. -/
inductive ErrDetails where
  | body (b : JsBody)
  | fallbackMessage (m : String)
  | text (m : String)
deriving DecidableEq

/-- The `ApiError` class of `secureApi.ts`. -/
structure ApiError where
  message : String
  status : Nat
  code : Option String
  details : Option ErrDetails
deriving DecidableEq

/-- A value thrown to (or past) the caller of `request`:
`undef` is the JS `undefined` (thrown by `throw lastError!` when `lastError`
was never assigned); `nativeTypeError` is the engine-raised `TypeError` from
a property access on `undefined` (its message text is engine-specific);
the other constructors are values the code constructs itself. -/
inductive Thrown where
  | undef
  | jsError (e : JsErrorVal)
  | nativeTypeError
  | apiError (e : ApiError)
deriving DecidableEq

/-- A completed HTTP response as far as the client reads it:
status, `statusText`, the `Retry-After` header (already parsed as integer
seconds, as `parseInt` does on well-formed headers), the `Content-Type`
header, the result of `response.json()` (`none` means the body does not
parse), and the result of `response.text()`. -/
structure MockResponse where
  status : Nat
  statusText : String
  retryAfter : Option Nat
  contentType : Option String
  jsonParse : Option JsBody
  textBody : String
deriving DecidableEq

/-- The outcome of one `fetch` call: a completed response, or a rejection
with an `Error`-family value (network `TypeError`, `AbortError`, ...). -/
inductive FetchOutcome where
  | ok (r : MockResponse)
  | exn (e : JsErrorVal)

/-- Embedding of `Response.ok`: status in the 2xx range. -/
def responseOk (r : MockResponse) : Bool := 200 ≤ r.status && r.status ≤ 299

/-- Embedding of `throw lastError!` at the bottom of `executeRequestWithRetry`: throws the
last caught exception, or `undefined` when no attempt ever threw. -/
def throwLast : Option JsErrorVal → Thrown
  | none => .undef
  | some e => .jsError e

/-- The loop body of `executeRequestWithRetry`
(`for (attempt = 0; attempt <= retries; attempt++)`), with the transport
modelled as a map from attempt index to outcome.  The fuel is
`retries + 1 - attempt` (the number of iterations left), so `attempt < retries`
at fuel `f + 1` is `1 ≤ f`.  Collects the backoff delays (in ms) performed
between attempts; `delays` is accumulated in reverse. -/
def retryLoop (fetches : Nat → FetchOutcome) (retries : Nat) :
    Nat → Nat → Option JsErrorVal → List Nat → Except Thrown MockResponse × List Nat
  | 0, _, lastError, delays => (.error (throwLast lastError), delays.reverse)
  | fuel + 1, attempt, lastError, delays =>
    match fetches attempt with
    | .ok r =>
      if 400 ≤ r.status ∧ r.status < 500 then
        if r.status = 429 then
          let d := match r.retryAfter with
            | some ra => ra * 1000
            | none => 2 ^ attempt * 1000
          retryLoop fetches retries fuel (attempt + 1) lastError (d :: delays)
        else (.ok r, delays.reverse)
      else if 500 ≤ r.status ∧ attempt < retries then
        retryLoop fetches retries fuel (attempt + 1) lastError (2 ^ attempt * 1000 :: delays)
      else (.ok r, delays.reverse)
    | .exn e =>
      if attempt < retries then
        retryLoop fetches retries fuel (attempt + 1) (some e) (2 ^ attempt * 1000 :: delays)
      else (.error (throwLast (some e)), delays.reverse)

/-- Embedding of `SecureApiClient.executeRequestWithRetry`. -/
def executeRequestWithRetry (fetches : Nat → FetchOutcome) (retries : Nat) :
    Except Thrown MockResponse × List Nat :=
  retryLoop fetches retries (retries + 1) 0 none []

/-- Embedding of `SecureApiClient.getErrorCodeFromStatus`. -/
def getErrorCodeFromStatus (status : Nat) : String :=
  if status = 400 then "BAD_REQUEST"
  else if status = 401 then "UNAUTHORIZED"
  else if status = 403 then "FORBIDDEN"
  else if status = 404 then "NOT_FOUND"
  else if status = 409 then "CONFLICT"
  else if status = 422 then "VALIDATION_ERROR"
  else if status = 429 then "RATE_LIMITED"
  else if status = 500 then "INTERNAL_ERROR"
  else if status = 502 then "BAD_GATEWAY"
  else if status = 503 then "SERVICE_UNAVAILABLE"
  else if status = 504 then "GATEWAY_TIMEOUT"
  else "UNKNOWN_ERROR"

/-- JS `a || b` on an optional string: an absent or empty string falls
through. -/
def truthyOrElse (a : Option String) (b : String) : String :=
  match a with
  | some s => if s = "" then b else s
  | none => b

/-- Embedding of `SecureApiClient.handleErrorResponse`: parse the error body (falling back
to an object holding the status text or "Unknown error"), build the `ApiError` with
message falling back to detail falling back to "Request failed" and the code falling back to the status table, and on
a 401 clear `auth_token` and `user_data` from secure storage before throwing.
Returns the thrown `ApiError` together with the updated storage. -/
def handleErrorResponse (store : LocalStorage) (r : MockResponse) : ApiError × LocalStorage :=
  let em : Option String :=
    match r.jsonParse with
    | some b => b.message
    | none => some (truthyOrElse (some r.statusText) "Unknown error")
  let ed : Option String :=
    match r.jsonParse with
    | some b => b.detail
    | none => none
  let ec : Option String :=
    match r.jsonParse with
    | some b => b.code
    | none => none
  let details : ErrDetails :=
    match r.jsonParse with
    | some b => .body b
    | none => .fallbackMessage (truthyOrElse (some r.statusText) "Unknown error")
  let apiError : ApiError :=
    { message := truthyOrElse em (truthyOrElse ed "Request failed")
      status := r.status
      code := some (truthyOrElse ec (getErrorCodeFromStatus r.status))
      details := some details }
  let store' :=
    if r.status = 401 then
      SecureStorage.removeItem (SecureStorage.removeItem store "auth_token") "user_data"
    else store
  (apiError, store')

/-- What `parseResponse` hands back: parsed JSON, raw text, or an opaque
binary blob. -/
inductive ParsedData where
  | json (b : JsBody)
  | text (s : String)
  | blob
deriving DecidableEq

/-- Embedding of `contentType && contentType.includes(pat)`. -/
def ctIncludes (ct : Option String) (pat : String) : Bool :=
  match ct with
  | some s => hasSubstring pat.data s.data
  | none => false

/-- Embedding of `SecureApiClient.parseResponse`: JSON by content type (an unparseable
body raises `INVALID_JSON`), `text/*` as text, anything else as a blob. -/
def parseResponse (r : MockResponse) : Except ApiError ParsedData :=
  if ctIncludes r.contentType "application/json" then
    match r.jsonParse with
    | some b => .ok (.json b)
    | none => .error ⟨"Invalid JSON response from server.", r.status, some "INVALID_JSON", none⟩
  else if ctIncludes r.contentType "text/" then .ok (.text r.textBody)
  else .ok .blob

/-- The `catch` block of `SecureApiClient.request`: rethrow `ApiError`s; map a
`TypeError` whose message mentions `fetch` to `NETWORK_ERROR`, an
`AbortError` to `TIMEOUT`, anything else to `UNKNOWN_ERROR`.  A caught
`undefined` crashes the handler itself: evaluating `error.name` raises a
native `TypeError`, which propagates to the caller in place of an
`ApiError`. -/
def catchMap (t : Thrown) : Thrown :=
  match t with
  | .apiError e => .apiError e
  | .jsError e =>
    if e.name = "TypeError" && hasSubstring "fetch".data e.message.data then
      .apiError ⟨"Network error. Please check your connection.", 0, some "NETWORK_ERROR", none⟩
    else if e.name = "AbortError" then
      .apiError ⟨"Request timeout. Please try again.", 408, some "TIMEOUT", none⟩
    else
      .apiError ⟨"An unexpected error occurred.", 500, some "UNKNOWN_ERROR", some (.text e.message)⟩
  | .undef => .nativeTypeError
  | .nativeTypeError =>
    .apiError ⟨"An unexpected error occurred.", 500, some "UNKNOWN_ERROR", none⟩

/-- One entry of `SecureApiClient.requestCache`. -/
structure CacheEntry where
  data : ParsedData
  expires : Nat
deriving DecidableEq

/-- The response cache, keyed by endpoint. -/
abbrev Cache := String → Option CacheEntry

/-- Pointwise cache update. -/
def cacheUpdate (c : Cache) (k : String) (v : Option CacheEntry) : Cache :=
  fun q => if q = k then v else c q

/-- A cache with no entries. -/
def emptyCache : Cache := fun _ => none

/-- Embedding of `SecureApiClient.getFromCache`: serve a non-expired entry, otherwise
delete the key and miss. -/
def getFromCache (cache : Cache) (now : Nat) (key : String) : Option ParsedData × Cache :=
  match cache key with
  | some e => if now < e.expires then (some e.data, cache) else (none, cacheUpdate cache key none)
  | none => (none, cacheUpdate cache key none)

/-- Embedding of `SecureApiClient.setCache`. -/
def setCache (cache : Cache) (key : String) (d : ParsedData) (ttl : Nat) (now : Nat) : Cache :=
  cacheUpdate cache key (some ⟨d, now + ttl⟩)

/-- The success object `{data, status, headers, success: true}` (headers are
not modelled). -/
structure ApiSuccess where
  data : ParsedData
  status : Nat
  success : Bool
deriving DecidableEq

/-- Everything observable about one `request` call: the resolved value or
thrown error, the final secure-storage and rate-limit and cache states, and
the backoff delays performed. -/
structure RequestResult where
  result : Except Thrown ApiSuccess
  store : LocalStorage
  rl : RLState
  cache : Cache
  delays : List Nat

/-- Embedding of `SecureApiClient.request`, with the transport mocked by `fetches`:
admission control via `isRequestAllowed` (throw `RATE_LIMITED` on denial,
outside the try/catch), cache check for cacheable GETs, the auth-token read
(which can delete a corrupt record), the retry loop, `handleErrorResponse`
for non-2xx responses (its `ApiError` is rethrown by the catch unchanged),
`parseResponse`, cache population for a cacheable GET 200, and the catch
mapping for non-`ApiError` exceptions.  Header and body assembly have no
observable effect in this model (the transport is an oracle) and timeout
scheduling is real time, so both are elided. -/
def request (store : LocalStorage) (rl : RLState) (cache : Cache) (now : Nat)
    (endpoint : String) (method : String) (cacheable : Bool) (retries : Nat)
    (fetches : Nat → FetchOutcome) : RequestResult :=
  let adm := isRequestAllowed rl now endpoint 100 60000
  if !adm.1 then
    { result := .error (.apiError
        ⟨"Too many requests. Please try again later.", 429, some "RATE_LIMITED", none⟩)
      store := store, rl := adm.2, cache := cache, delays := [] }
  else
    let cacheStep :=
      if method = "GET" && cacheable then getFromCache cache now endpoint
      else (none, cache)
    match cacheStep.1 with
    | some d =>
      { result := .ok ⟨d, 200, true⟩
        store := store, rl := adm.2, cache := cacheStep.2, delays := [] }
    | none =>
      let store1 := (SecureStorage.getItem store now "auth_token").2
      let ex := executeRequestWithRetry fetches retries
      match ex.1 with
      | .error t =>
        { result := .error (catchMap t)
          store := store1, rl := adm.2, cache := cacheStep.2, delays := ex.2 }
      | .ok r =>
        if !responseOk r then
          let he := handleErrorResponse store1 r
          { result := .error (.apiError he.1)
            store := he.2, rl := adm.2, cache := cacheStep.2, delays := ex.2 }
        else
          match parseResponse r with
          | .error e =>
            { result := .error (.apiError e)
              store := store1, rl := adm.2, cache := cacheStep.2, delays := ex.2 }
          | .ok d =>
            let cache2 :=
              if method = "GET" && cacheable && r.status = 200 then
                setCache cacheStep.2 endpoint d 300000 now
              else cacheStep.2
            { result := .ok ⟨d, r.status, true⟩
              store := store1, rl := adm.2, cache := cache2, delays := ex.2 }

/-! Concrete transports and responses used to exercise the pipeline. -/

/-- A bare 429 response with no `Retry-After` header. -/
def resp429 : MockResponse := ⟨429, "Too Many Requests", none, none, none, ""⟩

/-- A bare 500 response. -/
def resp500 : MockResponse := ⟨500, "Internal Server Error", none, none, none, ""⟩

/-- A parsed JSON body standing for a successful payload. -/
def body200 : JsBody := ⟨none, none, none, "payload"⟩

/-- A JSON 200 response carrying `body200`. -/
def resp200 : MockResponse := ⟨200, "OK", none, some "application/json", some body200, ""⟩

/-- A bare 401 response. -/
def resp401 : MockResponse := ⟨401, "Unauthorized", none, none, none, ""⟩

/-- A transport answering `a` on attempt 0, `b` on attempt 1 and `c` from
attempt 2 on — the simulated response sequence `[a, b, c]` of the spec. -/
def seq3 (a b c : MockResponse) : Nat → FetchOutcome :=
  fun n => if n = 0 then .ok a else if n = 1 then .ok b else .ok c

/-! Helper lemmas about the rate limiter. -/

lemma rlUpdate_self (st : RLState) (k : String) (w : RateWindow) :
    rlUpdate st k w k = some w := by
  simp [rlUpdate]

/-- A denied call returns the state unchanged. -/
lemma isRequestAllowed_denied (st : RLState) (now : Nat) (ep : String)
    (maxR winMs : Nat) (st2 : RLState)
    (h : isRequestAllowed st now ep maxR winMs = (false, st2)) : st2 = st := by
  unfold isRequestAllowed at h
  rcases hst : st ep with _ | w <;> rw [hst] at h
  · simp at h
  · by_cases h1 : w.resetTime < now
    · simp [h1] at h
    · by_cases h2 : maxR ≤ w.count
      · simp [h1, h2] at h
        exact h.symm
      · simp [h1, h2] at h

lemma map_decide_saturated (maxR m c : Nat) (h : maxR ≤ c) :
    (List.range m).map (fun i => decide (c + i < maxR)) = List.replicate m false := by
  apply List.eq_replicate_iff.mpr
  refine ⟨by simp, ?_⟩
  intro b hb
  simp only [List.mem_map, List.mem_range] at hb
  obtain ⟨i, _, rfl⟩ := hb
  simp [Nat.not_lt.mpr (le_trans h (Nat.le_add_right c i))]

/-- Verdicts of successive calls within a live window starting from count `c`:
the `i`-th call is allowed exactly while `c + i < maxR`, and the final count
saturates at the ceiling with the reset time untouched. -/
lemma runCalls_in_window (ep : String) (maxR winMs R : Nat) :
    ∀ (ts : List Nat) (st : RLState) (c : Nat),
      st ep = some ⟨c, R⟩ → (∀ t ∈ ts, t ≤ R) → c ≤ maxR →
      (runCalls ep maxR winMs st ts).1 =
        (List.range ts.length).map (fun i => decide (c + i < maxR)) ∧
      (runCalls ep maxR winMs st ts).2 ep = some ⟨min (c + ts.length) maxR, R⟩ := by
  intro ts
  induction ts with
  | nil =>
    intro st c hst _ hc
    simp [runCalls, hst, Nat.min_eq_left hc]
  | cons t ts ih =>
    intro st c hst hts hc
    have ht : t ≤ R := hts t (by simp)
    have hts2 : ∀ u ∈ ts, u ≤ R := fun u hu => hts u (by simp [hu])
    have hnotlt : ¬ R < t := Nat.not_lt.mpr ht
    by_cases hfull : maxR ≤ c
    · have hceq : c = maxR := Nat.le_antisymm hc hfull
      have hstep : isRequestAllowed st t ep maxR winMs = (false, st) := by
        simp [isRequestAllowed, hst, hnotlt, hfull]
      obtain ⟨ih1, ih2⟩ := ih st c hst hts2 hc
      constructor
      · simp only [runCalls, hstep, ih1]
        rw [map_decide_saturated maxR ts.length c hfull,
          map_decide_saturated maxR (t :: ts).length c hfull]
        simp [List.replicate_succ]
      · simp only [runCalls, hstep, ih2, List.length_cons]
        congr 2
        omega
    · have hlt : c < maxR := Nat.lt_of_not_le hfull
      have hstep : isRequestAllowed st t ep maxR winMs =
          (true, rlUpdate st ep ⟨c + 1, R⟩) := by
        simp [isRequestAllowed, hst, hnotlt, Nat.not_le.mpr hlt]
      obtain ⟨ih1, ih2⟩ := ih (rlUpdate st ep ⟨c + 1, R⟩) (c + 1)
        (rlUpdate_self st ep ⟨c + 1, R⟩) hts2 hlt
      constructor
      · simp only [runCalls, hstep, ih1]
        rw [List.length_cons, List.range_succ_eq_map, List.map_cons, List.map_map]
        refine congrArg₂ _ (by simp [hlt]) ?_
        apply List.map_congr_left
        intro i _
        exact decide_eq_decide.mpr (by omega)
      · simp only [runCalls, hstep, ih2, List.length_cons]
        congr 2
        omega

lemma map_range_from_one (M : Nat) :
    (List.range (M + 1)).map (fun i => decide (1 + i < M + 1)) =
      List.replicate M true ++ [false] := by
  rw [List.range_succ, List.map_append]
  refine congrArg₂ _ ?_ ?_
  · apply List.eq_replicate_iff.mpr
    refine ⟨by simp, ?_⟩
    intro b hb
    simp only [List.mem_map, List.mem_range] at hb
    obtain ⟨i, hi, rfl⟩ := hb
    simp only [decide_eq_true_eq]
    omega
  · simp only [List.map_cons, List.map_nil]
    rw [decide_eq_false (by omega : ¬ (1 + M < M + 1))]

/-- C2 counterexample: the claim quantifies over every ceiling `N`, but with
ceiling 0 the very first call of a window (the `(N+1)`-th call for `N = 0`)
is still allowed: a missing window always starts with count 1 and allows. -/
theorem C2_counterexample :
    (isRequestAllowed emptyRL 0 "e" 0 60000).1 = true := by
  rfl

/-- C2 (amended to ceilings `N ≥ 1`): starting with no window for the
endpoint, `N + 1` calls whose later timestamps stay within the window allow
the first `N` and deny exactly the last; the denial leaves the whole state
untouched (no extension, no reset); and once the window has elapsed
(`now > resetTime`) the next call starts a fresh window with count 1 and is
allowed. -/
theorem C2_rate_limit_window (ep : String) (N winMs t1 : Nat) (ts : List Nat)
    (st0 : RLState) (hN : 1 ≤ N) (hlen : ts.length = N)
    (hts : ∀ t ∈ ts, t ≤ t1 + winMs) (h0 : st0 ep = none) :
    (runCalls ep N winMs st0 (t1 :: ts)).1 = List.replicate N true ++ [false] ∧
    (runCalls ep N winMs st0 (t1 :: ts)).2 ep = some ⟨N, t1 + winMs⟩ ∧
    (∀ st now st2, isRequestAllowed st now ep N winMs = (false, st2) → st2 = st) ∧
    (∀ t2, t1 + winMs < t2 →
      isRequestAllowed (runCalls ep N winMs st0 (t1 :: ts)).2 t2 ep N winMs =
        (true, rlUpdate (runCalls ep N winMs st0 (t1 :: ts)).2 ep ⟨1, t2 + winMs⟩)) := by
  have hstep1 : isRequestAllowed st0 t1 ep N winMs =
      (true, rlUpdate st0 ep ⟨1, t1 + winMs⟩) := by
    simp [isRequestAllowed, h0]
  obtain ⟨main1, main2⟩ := runCalls_in_window ep N winMs (t1 + winMs) ts
    (rlUpdate st0 ep ⟨1, t1 + winMs⟩) 1 (rlUpdate_self st0 ep ⟨1, t1 + winMs⟩) hts hN
  obtain ⟨M, rfl⟩ : ∃ M, N = M + 1 := ⟨N - 1, by omega⟩
  have hfin : (runCalls ep (M + 1) winMs st0 (t1 :: ts)).2 ep =
      some ⟨M + 1, t1 + winMs⟩ := by
    simp only [runCalls, hstep1, main2, hlen]
    congr 2
    omega
  refine ⟨?_, hfin, ?_, ?_⟩
  · simp only [runCalls, hstep1, main1, hlen, map_range_from_one]
    simp [List.replicate_succ]
  · intro st now st2 h
    exact isRequestAllowed_denied st now ep (M + 1) winMs st2 h
  · intro t2 h2
    simp [isRequestAllowed, hfin, h2]

/-- C2 witness: ceiling 1, two calls inside the window. -/
theorem C2_witness :
    (runCalls "e" 1 10 emptyRL [0, 5]).1 = List.replicate 1 true ++ [false] :=
  (C2_rate_limit_window "e" 1 10 0 [5] emptyRL (by decide) rfl
    (by intro t ht; simp at ht; omega) rfl).1

/-- C8 counterexample: the claim says a call at exactly `resetAtEpochMs`
starts a fresh window; in the code the window only refreshes for
`now > resetTime`, so with ceiling 1 a first call at time 0
(reset at 60000) followed by a call at exactly 60000 is denied, not
allowed-with-count-1. -/
theorem C8_counterexample :
    (isRequestAllowed ((isRequestAllowed emptyRL 0 "e" 1 60000).2)
      60000 "e" 1 60000).1 = false := by
  rfl

/-- C8 (amended): for ceilings `N ≥ 1` the per-window count never exceeds the
ceiling; a call at exactly `resetTime` is still governed by the old window
(deny at the ceiling, else increment, same reset time); the fresh window
(count 1) starts only strictly after `resetTime`. -/
theorem C8_window_semantics (ep : String) (N winMs : Nat) (hN : 1 ≤ N) :
    (∀ (st : RLState) (now : Nat) (w2 : RateWindow),
        (∀ w : RateWindow, st ep = some w → w.count ≤ N) →
        ((isRequestAllowed st now ep N winMs).2) ep = some w2 → w2.count ≤ N) ∧
    (∀ (st : RLState) (c R : Nat), st ep = some ⟨c, R⟩ →
        isRequestAllowed st R ep N winMs =
          (if N ≤ c then (false, st) else (true, rlUpdate st ep ⟨c + 1, R⟩))) ∧
    (∀ (st : RLState) (c R now : Nat), st ep = some ⟨c, R⟩ → R < now →
        isRequestAllowed st now ep N winMs = (true, rlUpdate st ep ⟨1, now + winMs⟩)) := by
  refine ⟨?_, ?_, ?_⟩
  · intro st now w2 hbound h2
    rcases hst : st ep with _ | w
    · simp only [isRequestAllowed, hst] at h2
      rw [rlUpdate_self] at h2
      cases h2
      exact hN
    · simp only [isRequestAllowed, hst] at h2
      by_cases h1 : w.resetTime < now
      · simp only [h1, if_true] at h2
        rw [rlUpdate_self] at h2
        cases h2
        exact hN
      · by_cases hfull : N ≤ w.count
        · simp only [h1, if_false, hfull, if_true] at h2
          rw [hst] at h2
          cases h2
          exact hbound _ hst
        · simp only [h1, if_false, hfull] at h2
          rw [rlUpdate_self] at h2
          cases h2
          exact Nat.lt_of_not_le hfull
  · intro st c R hst
    have hnotlt : ¬ R < R := Nat.lt_irrefl R
    by_cases hfull : N ≤ c
    · simp [isRequestAllowed, hst, hnotlt, hfull]
    · simp [isRequestAllowed, hst, hnotlt, hfull]
  · intro st c R now hst hlt
    simp [isRequestAllowed, hst, hlt]

/-- C8 witness: a one-slot window read at exactly its reset time. -/
theorem C8_witness :
    isRequestAllowed (rlUpdate emptyRL "e" ⟨1, 60000⟩) 60000 "e" 1 60000 =
      (if 1 ≤ 1 then (false, rlUpdate emptyRL "e" ⟨1, 60000⟩)
       else (true, rlUpdate (rlUpdate emptyRL "e" ⟨1, 60000⟩) "e" ⟨2, 60000⟩)) :=
  (C8_window_semantics "e" 1 60000 (by decide)).2.1
    (rlUpdate emptyRL "e" ⟨1, 60000⟩) 1 60000 rfl

/-- C9: `sanitizeFilename` never returns an empty name; when stripping and
trimming leave nothing, it falls back to the literal name `file` (shown here
on an input that is entirely trimmed away). -/
theorem C9_sanitizeFilename_nonempty :
    (∀ s : Chars, 0 < (sanitizeFilename s).length) ∧
    sanitizeFilename " .. ".data = "file".data := by
  constructor
  · intro s
    have hfb : ∀ t : Chars, 0 < (fallbackIfEmpty t).length := by
      intro t
      unfold fallbackIfEmpty
      split
      · decide
      · next h => exact List.length_pos.mpr h
    simp only [sanitizeFilename]
    exact hfb _
  · rfl

/-- Splitting a dot-free string on dots returns the string whole. -/
lemma splitOnDot_no_dot : ∀ {s : Chars}, '.' ∉ s → splitOnDot s = [s] := by
  intro s
  induction s with
  | nil => intro _; rfl
  | cons c cs ih =>
    intro h
    have hc : ¬ c = '.' := by
      intro hh
      exact h (by simp [hh])
    have hcs : '.' ∉ cs := by
      intro hh
      exact h (by simp [hh])
    simp [splitOnDot, hc, ih hcs]

/-- C10: for a dot-free filename the derived extension is a dot followed by
the whole lowercased name, and (with the size check passing) the file is
accepted exactly when that derived string is itself in the allow-list,
otherwise rejected as a disallowed type. -/
theorem C10_dotless_extension (cfg : SecurityConfig) (f : MockFile)
    (hdot : '.' ∉ f.name) (hsize : f.size ≤ cfg.maxFileSize) :
    fileExtension f.name = '.' :: lowerAscii f.name ∧
    ((validateFile cfg f).valid = true ↔
      ('.' :: lowerAscii f.name) ∈ cfg.allowedFileTypes) ∧
    (('.' :: lowerAscii f.name) ∉ cfg.allowedFileTypes →
      (validateFile cfg f).error = some (.typeNotAllowed ('.' :: lowerAscii f.name))) := by
  have hext : fileExtension f.name = '.' :: lowerAscii f.name := by
    simp [fileExtension, splitOnDot_no_dot hdot]
  have hnotsz : ¬ cfg.maxFileSize < f.size := Nat.not_lt.mpr hsize
  refine ⟨hext, ?_, ?_⟩
  · by_cases hmem : ('.' :: lowerAscii f.name) ∈ cfg.allowedFileTypes
    · simp [validateFile, hnotsz, hext, hmem]
    · simp [validateFile, hnotsz, hext, hmem]
  · intro hmem
    simp [validateFile, hnotsz, hext, hmem]

/-- C10 witness: `README` is accepted exactly when `.readme` is allowed. -/
theorem C10_witness :
    fileExtension "README".data = '.' :: lowerAscii "README".data ∧
    ((validateFile ⟨10000, [".readme".data], 100⟩ ⟨"README".data, 0⟩).valid = true ↔
      ('.' :: lowerAscii "README".data) ∈ [".readme".data]) ∧
    (('.' :: lowerAscii "README".data) ∉ [".readme".data] →
      (validateFile ⟨10000, [".readme".data], 100⟩ ⟨"README".data, 0⟩).error
        = some (.typeNotAllowed ('.' :: lowerAscii "README".data))) :=
  C10_dotless_extension ⟨10000, [".readme".data], 100⟩ ⟨"README".data, 0⟩
    (by decide) (by decide)

/-- C3 counterexample: the rolling hash collides on the classic pair
`"Aa"`/`"BB"`, so mutating a stored `"Aa"` to the different string `"BB"`
without touching the stored checksum is NOT detected: `getItem` returns the
poisoned value instead of absent-and-delete. -/
theorem C3_counterexample :
    generateChecksum "Aa".data = generateChecksum "BB".data ∧
    "BB".data ≠ "Aa".data ∧
    (SecureStorage.getItem
      (storeUpdate (SecureStorage.setItem emptyStore 0 "k" "Aa".data) "k"
        (some ⟨"BB".data, 0, generateChecksum "Aa".data⟩)) 0 "k").1
      = some "BB".data := by
  refine ⟨by decide, by decide, by decide⟩

/-- C3 (amended): `setItem` then `getItem` within 24 hours returns the value
unchanged; and a stored record whose checksum does not match its (externally
mutated) value is deleted and read as absent.  Mutations to a
checksum-colliding different string escape detection (see the
counterexample). -/
theorem C3_storage_integrity (st : LocalStorage) (k : String) (v : Chars)
    (now later : Nat) (hfresh : later - now ≤ 86400000) :
    SecureStorage.getItem (SecureStorage.setItem st now k v) later k
      = (some v, SecureStorage.setItem st now k v) ∧
    (∀ (st2 : LocalStorage) (r : StoredRecord), st2 k = some r →
        generateChecksum r.value ≠ r.checksum →
        SecureStorage.getItem st2 later k = (none, SecureStorage.removeItem st2 k)) := by
  constructor
  · have hkey : (SecureStorage.setItem st now k v) k
        = some ⟨v, now, generateChecksum v⟩ := by
      simp [SecureStorage.setItem, storeUpdate]
    simp only [SecureStorage.getItem, hkey]
    rw [if_neg (by simp), if_neg (by omega)]
  · intro st2 r hst2 hbad
    simp only [SecureStorage.getItem, hst2]
    rw [if_pos hbad]

/-- C3 witness: a clean round trip, and detection of a record whose stored
checksum does not match its value. -/
theorem C3_witness :
    SecureStorage.getItem (SecureStorage.setItem emptyStore 0 "k" "hello".data) 0 "k"
      = (some "hello".data, SecureStorage.setItem emptyStore 0 "k" "hello".data) ∧
    SecureStorage.getItem (storeUpdate emptyStore "k" (some ⟨"x".data, 0, "zz".data⟩)) 0 "k"
      = (none, SecureStorage.removeItem
          (storeUpdate emptyStore "k" (some ⟨"x".data, 0, "zz".data⟩)) "k") :=
  ⟨(C3_storage_integrity emptyStore "k" "hello".data 0 0 (by decide)).1,
   (C3_storage_integrity emptyStore "k" "hello".data 0 0 (by decide)).2
     (storeUpdate emptyStore "k" (some ⟨"x".data, 0, "zz".data⟩))
     ⟨"x".data, 0, "zz".data⟩ rfl (by decide)⟩

/-! Helper lemmas for the `sanitizeText` pipeline: every stage after the
control-character strip only deletes characters, so membership propagates
back and lengths never grow. -/

lemma mem_of_mem_dropWhile {p : Char → Bool} :
    ∀ {s : Chars} {c : Char}, c ∈ s.dropWhile p → c ∈ s := by
  intro s
  induction s with
  | nil =>
    intro c h
    simpa [List.dropWhile] using h
  | cons a as ih =>
    intro c h
    rw [List.dropWhile_cons] at h
    by_cases hp : p a = true
    · simp only [hp, if_true] at h
      exact List.mem_cons_of_mem a (ih h)
    · simp only [hp, if_false] at h
      exact h

/-- Membership survives the double-reverse trim shape used by `jsTrim` and
`jsTrimDotsSpaces`. -/
lemma mem_of_mem_revTrim {p : Char → Bool} {s : Chars} {c : Char}
    (h : c ∈ ((s.dropWhile p).reverse.dropWhile p).reverse) : c ∈ s := by
  rw [List.mem_reverse] at h
  have h2 := mem_of_mem_dropWhile h
  rw [List.mem_reverse] at h2
  exact mem_of_mem_dropWhile h2

lemma findScriptClose_subset :
    ∀ {s r : Chars}, findScriptClose s = some r → ∀ {c : Char}, c ∈ r → c ∈ s := by
  intro s
  induction s with
  | nil =>
    intro r h
    simp [findScriptClose] at h
  | cons a as ih =>
    intro r h c hc
    rw [findScriptClose] at h
    by_cases hb : charsBeginWithCI scriptCloseLit (a :: as) = true
    · simp only [hb, if_true] at h
      cases h
      exact (List.drop_sublist 9 (a :: as)).subset hc
    · simp only [hb, if_false] at h
      exact List.mem_cons_of_mem a (ih h hc)

lemma findScriptClose_length :
    ∀ {s r : Chars}, findScriptClose s = some r → r.length ≤ s.length := by
  intro s
  induction s with
  | nil =>
    intro r h
    simp [findScriptClose] at h
  | cons a as ih =>
    intro r h
    rw [findScriptClose] at h
    by_cases hb : charsBeginWithCI scriptCloseLit (a :: as) = true
    · simp only [hb, if_true] at h
      cases h
      exact le_trans (List.length_drop 9 (a :: as) ▸ Nat.sub_le _ _) (le_refl _)
    · simp only [hb, if_false] at h
      exact le_trans (ih h) (by simp)

lemma removeScriptsAux_subset :
    ∀ (fuel : Nat) (s : Chars) {c : Char}, c ∈ removeScriptsAux fuel s → c ∈ s := by
  intro fuel
  induction fuel with
  | zero =>
    intro s c h
    simpa [removeScriptsAux] using h
  | succ fuel ih =>
    intro s c h
    match s with
    | [] => simpa [removeScriptsAux] using h
    | a :: as =>
      rw [removeScriptsAux] at h
      by_cases hopen : scriptOpenAt (a :: as) = true
      · simp only [hopen, if_true] at h
        rcases hf : findScriptClose ((a :: as).drop 7) with _ | rest
        · rw [hf] at h
          rcases List.mem_cons.mp h with h1 | h1
          · exact h1 ▸ List.mem_cons_self a as
          · exact List.mem_cons_of_mem a (ih as h1)
        · rw [hf] at h
          have h2 := findScriptClose_subset hf (ih rest h)
          exact (List.drop_sublist 7 (a :: as)).subset h2
      · simp only [hopen, if_false] at h
        rcases List.mem_cons.mp h with h1 | h1
        · exact h1 ▸ List.mem_cons_self a as
        · exact List.mem_cons_of_mem a (ih as h1)

lemma removeScriptsAux_length :
    ∀ (fuel : Nat) (s : Chars), (removeScriptsAux fuel s).length ≤ s.length := by
  intro fuel
  induction fuel with
  | zero =>
    intro s
    simp [removeScriptsAux]
  | succ fuel ih =>
    intro s
    match s with
    | [] => simp [removeScriptsAux]
    | a :: as =>
      rw [removeScriptsAux]
      by_cases hopen : scriptOpenAt (a :: as) = true
      · simp only [hopen, if_true]
        rcases hf : findScriptClose ((a :: as).drop 7) with _ | rest
        · simpa using ih as
        · show (removeScriptsAux fuel rest).length ≤ (a :: as).length
          have h1 := ih rest
          have h2 := findScriptClose_length hf
          have h3 : ((a :: as).drop 7).length ≤ (a :: as).length := by
            rw [List.length_drop]
            omega
          omega
      · simp only [hopen, if_false]
        simpa using ih as

lemma removeAllCIAux_subset (pat : Chars) :
    ∀ (fuel : Nat) (s : Chars) {c : Char}, c ∈ removeAllCIAux pat fuel s → c ∈ s := by
  intro fuel
  induction fuel with
  | zero =>
    intro s c h
    simpa [removeAllCIAux] using h
  | succ fuel ih =>
    intro s c h
    match s with
    | [] => simpa [removeAllCIAux] using h
    | a :: as =>
      rw [removeAllCIAux] at h
      by_cases hb : charsBeginWithCI pat (a :: as) = true
      · simp only [hb, if_true] at h
        exact (List.drop_sublist pat.length (a :: as)).subset (ih _ h)
      · simp only [hb, if_false] at h
        rcases List.mem_cons.mp h with h1 | h1
        · exact h1 ▸ List.mem_cons_self a as
        · exact List.mem_cons_of_mem a (ih as h1)

lemma removeAllCIAux_length (pat : Chars) :
    ∀ (fuel : Nat) (s : Chars), (removeAllCIAux pat fuel s).length ≤ s.length := by
  intro fuel
  induction fuel with
  | zero =>
    intro s
    simp [removeAllCIAux]
  | succ fuel ih =>
    intro s
    match s with
    | [] => simp [removeAllCIAux]
    | a :: as =>
      rw [removeAllCIAux]
      by_cases hb : charsBeginWithCI pat (a :: as) = true
      · simp only [hb, if_true]
        have h1 := ih ((a :: as).drop pat.length)
        have h2 : ((a :: as).drop pat.length).length ≤ (a :: as).length := by
          rw [List.length_drop]
          omega
        omega
      · simp only [hb, if_false]
        simpa using ih as

/-- No character of a sanitized string lies in the stripped control class. -/
lemma mem_sanitizeTextChars (cfg : SecurityConfig) (s : Chars) {c : Char}
    (h : c ∈ sanitizeTextChars cfg s) : strippedControl c = false := by
  simp only [sanitizeTextChars, removeAllCI, removeScripts] at h
  have h1 := removeAllCIAux_subset "vbscript:".data _ _ h
  have h2 := removeAllCIAux_subset "data:".data _ _ h1
  have h3 := removeAllCIAux_subset "javascript:".data _ _ h2
  have h4 := removeScriptsAux_subset _ _ h3
  have h5 := (List.take_sublist _ _).subset h4
  have h6 : c ∈ stripControls s := mem_of_mem_revTrim h5
  have h7 := (List.mem_filter.mp h6).2
  simpa using h7

/-- Sanitized output never exceeds the configured input length. -/
lemma sanitizeTextChars_length (cfg : SecurityConfig) (s : Chars) :
    (sanitizeTextChars cfg s).length ≤ cfg.maxInputLength := by
  simp only [sanitizeTextChars, removeAllCI, removeScripts]
  have h1 := removeAllCIAux_length "vbscript:".data
  have h2 := removeAllCIAux_length "data:".data
  have h3 := removeAllCIAux_length "javascript:".data
  have h4 := removeScriptsAux_length
  have h5 := List.length_take_le cfg.maxInputLength (jsTrim (stripControls s))
  calc (removeAllCIAux "vbscript:".data _ _).length
      ≤ _ := h1 _ _
    _ ≤ _ := h2 _ _
    _ ≤ _ := h3 _ _
    _ ≤ _ := h4 _ _
    _ ≤ cfg.maxInputLength := h5

/-- C4 counterexample: tab (0x09) is a C0 control character, but the control
class of `sanitizeText` skips 0x09/0x0A/0x0D, so an interior tab survives
sanitization, contradicting "strips all C0 control characters". -/
theorem C4_counterexample :
    sanitizeTextChars DEFAULT_SECURITY_CONFIG "a\tb".data = "a\tb".data ∧
    '\t' ∈ "a\tb".data ∧ '\t'.toNat ≤ 31 := by
  refine ⟨by decide, by decide, by decide⟩

/-- C4 (amended): a non-string input raises a plain `Error` (not a
`TypeError`) reading `Input must be a string`; every string input loses all
characters of the control class of the source (C0 minus tab/LF/CR, plus DEL),
is truncated to `maxInputLength`, and has `<script>...</script>` blocks and
the `javascript:`/`data:`/`vbscript:` prefixes removed case-insensitively
(shown on the examples of the spec plus a mixed-case one). -/
theorem C4_sanitizeText_amended :
    sanitizeText DEFAULT_SECURITY_CONFIG .nonString
        = .error ⟨"Error", "Input must be a string"⟩ ∧
    (∀ (cfg : SecurityConfig) (s : Chars) (c : Char),
        c ∈ sanitizeTextChars cfg s → strippedControl c = false) ∧
    (∀ (cfg : SecurityConfig) (s : Chars),
        (sanitizeTextChars cfg s).length ≤ cfg.maxInputLength) ∧
    sanitizeTextChars DEFAULT_SECURITY_CONFIG "<script>alert(1)</script>hi".data
        = "hi".data ∧
    sanitizeTextChars DEFAULT_SECURITY_CONFIG "javascript:doEvil()".data
        = "doEvil()".data ∧
    sanitizeTextChars DEFAULT_SECURITY_CONFIG "JaVaScRiPt:x".data = "x".data := by
  refine ⟨rfl, ?_, ?_, by decide, by decide, by decide⟩
  · intro cfg s c h
    exact mem_sanitizeTextChars cfg s h
  · intro cfg s
    exact sanitizeTextChars_length cfg s

/-- C4 witness: the membership implication at a concrete character. -/
theorem C4_witness :
    'h' ∈ sanitizeTextChars DEFAULT_SECURITY_CONFIG "hi".data ∧
    strippedControl 'h' = false :=
  ⟨by decide,
   C4_sanitizeText_amended.2.1 DEFAULT_SECURITY_CONFIG "hi".data 'h' (by decide)⟩

/-! Helper lemmas for `sanitizeFilename`. -/

lemma jsSliceEnd_subset {s : Chars} {e : Int} {c : Char}
    (h : c ∈ jsSliceEnd s e) : c ∈ s := by
  unfold jsSliceEnd at h
  split at h <;> exact (List.take_sublist _ _).subset h

lemma jsSliceEnd_length_le (s : Chars) (e : Int) (he : 0 ≤ e) :
    (jsSliceEnd s e).length ≤ e.toNat := by
  unfold jsSliceEnd
  rw [if_neg (by omega)]
  exact List.length_take_le _ _

lemma splitOnDot_ne_nil : ∀ (s : Chars), splitOnDot s ≠ [] := by
  intro s
  cases s with
  | nil => simp [splitOnDot]
  | cons c cs =>
    by_cases hc : c = '.'
    · simp [splitOnDot, hc]
    · simp only [splitOnDot, hc, if_false]
      rcases h : splitOnDot cs with _ | ⟨p, ps⟩
      · simp
      · simp

lemma mem_splitOnDot :
    ∀ {s p : Chars}, p ∈ splitOnDot s → ∀ {c : Char}, c ∈ p → c ∈ s := by
  intro s
  induction s with
  | nil =>
    intro p hp c hc
    simp [splitOnDot] at hp
    subst hp
    simp at hc
  | cons a as ih =>
    intro p hp c hc
    by_cases ha : a = '.'
    · simp only [splitOnDot, ha, if_true] at hp
      rcases List.mem_cons.mp hp with h1 | h1
      · subst h1
        simp at hc
      · exact List.mem_cons_of_mem a (ih h1 hc)
    · simp only [splitOnDot, ha, if_false] at hp
      rcases hsp : splitOnDot as with _ | ⟨q, qs⟩
      · exact absurd hsp (splitOnDot_ne_nil as)
      · rw [hsp] at hp
        rcases List.mem_cons.mp hp with h1 | h1
        · subst h1
          rcases List.mem_cons.mp hc with h2 | h2
          · subst h2
            exact List.mem_cons_self _ _
          · have hq : q ∈ splitOnDot as := by
              rw [hsp]
              exact List.mem_cons_self q qs
            exact List.mem_cons_of_mem a (ih hq h2)
        · have hq : p ∈ splitOnDot as := by
            rw [hsp]
            exact List.mem_cons_of_mem q h1
          exact List.mem_cons_of_mem a (ih hq hc)

lemma mem_joinDot :
    ∀ {ps : List Chars} {c : Char}, c ∈ joinDot ps → c = '.' ∨ ∃ p ∈ ps, c ∈ p := by
  intro ps
  induction ps with
  | nil =>
    intro c hc
    simp [joinDot] at hc
  | cons p ps ih =>
    intro c hc
    cases ps with
    | nil =>
      right
      exact ⟨p, List.mem_cons_self p [], by simpa [joinDot] using hc⟩
    | cons q qs =>
      rw [joinDot] at hc
      rcases List.mem_append.mp hc with h1 | h1
      · right
        exact ⟨p, List.mem_cons_self _ _, h1⟩
      · rcases List.mem_cons.mp h1 with h2 | h2
        · left
          exact h2
        · rcases ih h2 with h3 | ⟨r, hr, hcr⟩
          · left
            exact h3
          · right
            exact ⟨r, List.mem_cons_of_mem p hr, hcr⟩

lemma getLastD_mem : ∀ {ps : List Chars}, ps ≠ [] → ps.getLastD [] ∈ ps := by
  intro ps h
  match ps with
  | [] => exact absurd rfl h
  | p :: ps =>
    rw [List.getLastD_cons]
    exact List.getLastD_mem_cons ps p

/-- Characters surviving the strip-and-trim stages are non-dangerous. -/
lemma mem_trimmed_filename {s : Chars} {c : Char}
    (h : c ∈ jsTrimDotsSpaces (s.filter (fun c => !dangerousFilenameChar c))) :
    dangerousFilenameChar c = false := by
  unfold jsTrimDotsSpaces at h
  have h1 := mem_of_mem_revTrim h
  simpa using (List.mem_filter.mp h1).2

lemma fallbackIfEmpty_length_le {t : Chars} {n : Nat} (h4 : 4 ≤ n)
    (ht : t.length ≤ n) : (fallbackIfEmpty t).length ≤ n := by
  unfold fallbackIfEmpty
  split
  · simpa using h4
  · exact ht

lemma mem_fallbackIfEmpty {t : Chars} {c : Char} (h : c ∈ fallbackIfEmpty t) :
    c ∈ t ∨ c ∈ "file".data := by
  unfold fallbackIfEmpty at h
  split at h
  · right
    exact h
  · left
    exact h

set_option maxRecDepth 8192 in
/-- C7 counterexample: a filename whose extension part alone exceeds 250
characters escapes the length cap.  With a config that allows the 256-char
extension, the 257-char name `a.eee...e` passes validation, and the
"capped" sanitized name still has 256 characters — more than 255.  (The
name part is sliced with a negative end index and vanishes; the whole
extension is appended unconditionally.) -/
theorem C7_counterexample :
    (validateFile ⟨10000, ['.' :: List.replicate 255 'e'], 10485760⟩
        ⟨'a' :: '.' :: List.replicate 255 'e', 1⟩).valid = true ∧
    (validateFile ⟨10000, ['.' :: List.replicate 255 'e'], 10485760⟩
        ⟨'a' :: '.' :: List.replicate 255 'e', 1⟩).sanitizedName
      = some (sanitizeFilename ('a' :: '.' :: List.replicate 255 'e')) ∧
    255 < (sanitizeFilename ('a' :: '.' :: List.replicate 255 'e')).length := by
  refine ⟨by decide, by decide, by decide⟩

/-- C7 (amended): `validateFile` rejects exactly on an oversized file or a
disallowed lowercase extension (shown generally and on the 20MB and
`.exe` examples); on success it returns the sanitized name, which never
contains a path separator or one of `<>:"|?*`, trims leading/trailing dots
and spaces (shown on an example), and is capped to at most 255 characters
whenever the extension part of the stripped-and-trimmed name is at most 250
characters — a longer extension escapes the cap (see the counterexample). -/
theorem C7_validateFile_amended :
    (∀ (cfg : SecurityConfig) (f : MockFile),
        (validateFile cfg f).valid = true ↔
          (f.size ≤ cfg.maxFileSize ∧ fileExtension f.name ∈ cfg.allowedFileTypes)) ∧
    (∀ (cfg : SecurityConfig) (f : MockFile), (validateFile cfg f).valid = true →
        (validateFile cfg f).sanitizedName = some (sanitizeFilename f.name)) ∧
    (∀ (cfg : SecurityConfig) (f : MockFile), cfg.maxFileSize < f.size →
        (validateFile cfg f).error = some (.sizeExceeded cfg.maxFileSize)) ∧
    (∀ (s : Chars) (c : Char), c ∈ sanitizeFilename s →
        dangerousFilenameChar c = false) ∧
    (∀ s : Chars,
        (capExtensionPart (jsTrimDotsSpaces
            (s.filter (fun c => !dangerousFilenameChar c)))).length ≤ 250 →
        (sanitizeFilename s).length ≤ 255) ∧
    sanitizeFilename " .name. ".data = "name".data ∧
    validateFile ⟨10000, [".png".data, ".jpg".data, ".pdf".data], 10485760⟩
        ⟨"a.exe".data, 1⟩
      = ⟨false, some (.typeNotAllowed ".exe".data), none⟩ ∧
    validateFile ⟨10000, [".png".data, ".jpg".data, ".pdf".data], 10485760⟩
        ⟨"a.png".data, 20971520⟩
      = ⟨false, some (.sizeExceeded 10485760), none⟩ := by
  refine ⟨?_, ?_, ?_, ?_, ?_, by decide, by decide, by decide⟩
  · intro cfg f
    by_cases hsz : cfg.maxFileSize < f.size
    · simp only [validateFile, hsz, if_true]
      constructor
      · intro h
        exact absurd h (by simp)
      · intro hc
        exact absurd hc.1 (Nat.not_le.mpr hsz)
    · by_cases hmem : fileExtension f.name ∈ cfg.allowedFileTypes
      · simp [validateFile, hsz, hmem, Nat.not_lt.mp hsz]
      · simp [validateFile, hsz, hmem, Nat.not_lt.mp hsz]
  · intro cfg f h
    by_cases hsz : cfg.maxFileSize < f.size
    · simp [validateFile, hsz] at h
    · by_cases hmem : fileExtension f.name ∈ cfg.allowedFileTypes
      · simp [validateFile, hsz, hmem]
      · simp [validateFile, hsz, hmem] at h
  · intro cfg f hsz
    simp [validateFile, hsz]
  · intro s c h
    simp only [sanitizeFilename] at h
    rcases mem_fallbackIfEmpty h with h | h
    case inr =>
      simp only [List.mem_cons] at h
      rcases h with rfl | rfl | rfl | rfl | h
      · rfl
      · rfl
      · rfl
      · rfl
      · simp at h
    case inl =>
      split at h
      · split at h
        · rcases List.mem_append.mp h with h1 | h1
          · rcases mem_joinDot (jsSliceEnd_subset h1) with h2 | ⟨p, hp, hcp⟩
            · subst h2
              rfl
            · exact mem_trimmed_filename
                (mem_splitOnDot (List.dropLast_subset _ hp) hcp)
          · rcases List.mem_cons.mp h1 with h2 | h2
            · subst h2
              rfl
            · exact mem_trimmed_filename
                (mem_splitOnDot (getLastD_mem (splitOnDot_ne_nil _)) h2)
        · rcases mem_joinDot (jsSliceEnd_subset h) with h2 | ⟨p, hp, hcp⟩
          · subst h2
            rfl
          · exact mem_trimmed_filename (mem_splitOnDot hp hcp)
      · exact mem_trimmed_filename h
  · intro s hcap
    simp only [sanitizeFilename]
    apply fallbackIfEmpty_length_le (by norm_num)
    split
    · split
      · next hparts =>
        simp only [capExtensionPart] at hcap
        rw [if_pos hparts] at hcap
        rw [List.length_append]
        have hnn : (0 : Int) ≤ 250 -
            (('.' :: (splitOnDot (jsTrimDotsSpaces
              (s.filter (fun c => !dangerousFilenameChar c)))).getLastD []).length : Int) := by
          omega
        have hs := jsSliceEnd_length_le (joinDot (splitOnDot (jsTrimDotsSpaces
            (s.filter (fun c => !dangerousFilenameChar c)))).dropLast) _ hnn
        omega
      · have hs := jsSliceEnd_length_le (joinDot (splitOnDot (jsTrimDotsSpaces
            (s.filter (fun c => !dangerousFilenameChar c))))) 250 (by norm_num)
        omega
    · next h =>
      omega

/-- C7 witness: the hypothesis-bearing parts at concrete inputs. -/
theorem C7_witness :
    (validateFile DEFAULT_SECURITY_CONFIG ⟨"a.png".data, 1⟩).sanitizedName
      = some (sanitizeFilename "a.png".data) ∧
    (sanitizeFilename "doc.txt".data).length ≤ 255 :=
  ⟨C7_validateFile_amended.2.1 DEFAULT_SECURITY_CONFIG ⟨"a.png".data, 1⟩ (by decide),
   C7_validateFile_amended.2.2.2.2.1 "doc.txt".data (by decide)⟩

/-- One unfolding of the retry loop (the loop body for `attempt ≤ retries`,
i.e. positive fuel). -/
lemma retryLoop_step (f : Nat → FetchOutcome) (r fuel attempt : Nat)
    (lastE : Option JsErrorVal) (delays : List Nat) :
    retryLoop f r (fuel + 1) attempt lastE delays =
      match f attempt with
      | .ok resp =>
        if 400 ≤ resp.status ∧ resp.status < 500 then
          if resp.status = 429 then
            retryLoop f r fuel (attempt + 1) lastE
              ((match resp.retryAfter with
                | some ra => ra * 1000
                | none => 2 ^ attempt * 1000) :: delays)
          else (.ok resp, delays.reverse)
        else if 500 ≤ resp.status ∧ attempt < r then
          retryLoop f r fuel (attempt + 1) lastE (2 ^ attempt * 1000 :: delays)
        else (.ok resp, delays.reverse)
      | .exn e =>
        if attempt < r then
          retryLoop f r fuel (attempt + 1) (some e) (2 ^ attempt * 1000 :: delays)
        else (.error (throwLast (some e)), delays.reverse) := rfl

/-- C1: with the default ceiling of 3 retries, a transport answering 429 on
every attempt exhausts the budget with `lastError` never assigned;
`executeRequestWithRetry` then executes `throw lastError!` on `undefined`,
and the catch block of `request` crashes evaluating `error.name`, so the
caller receives a native `TypeError` — not the promised `ApiError`.  All
four exponential backoff delays are still performed first. -/
theorem C1_429_exhaustion_throws_typeerror :
    (request emptyStore emptyRL emptyCache 0 "/x" "GET" false 3
        (fun _ => .ok resp429)).result = .error .nativeTypeError ∧
    (request emptyStore emptyRL emptyCache 0 "/x" "GET" false 3
        (fun _ => .ok resp429)).delays = [1000, 2000, 4000, 8000] := by
  exact ⟨rfl, rfl⟩

/-- C5: a transport answering 500, 500, 200 under `maxRetries = 3` returns
the 200 response with exactly the two backoff delays `2^0` s and `2^1` s
(in ms), for any such responses; and the full `request` pipeline resolves it
as a success with the parsed 200 payload. -/
theorem C5_retry_sequence_500_500_200 :
    (∀ (r5a r5b r2 : MockResponse), r5a.status = 500 → r5b.status = 500 →
        r2.status = 200 →
        executeRequestWithRetry (seq3 r5a r5b r2) 3 = (.ok r2, [1000, 2000])) ∧
    (request emptyStore emptyRL emptyCache 0 "/x" "GET" false 3
        (seq3 resp500 resp500 resp200)).result = .ok ⟨.json body200, 200, true⟩ ∧
    (request emptyStore emptyRL emptyCache 0 "/x" "GET" false 3
        (seq3 resp500 resp500 resp200)).delays = [1000, 2000] := by
  refine ⟨?_, rfl, rfl⟩
  intro r5a r5b r2 h1 h2 h3
  have f0 : seq3 r5a r5b r2 0 = .ok r5a := rfl
  have f1 : seq3 r5a r5b r2 1 = .ok r5b := rfl
  have f2 : seq3 r5a r5b r2 2 = .ok r2 := rfl
  show retryLoop (seq3 r5a r5b r2) 3 (3 + 1) 0 none [] = (.ok r2, [1000, 2000])
  rw [retryLoop_step, f0]
  simp only [h1]
  norm_num
  rw [retryLoop_step (seq3 r5a r5b r2) 3 2 1 none, f1]
  simp only [h2]
  norm_num
  rw [retryLoop_step (seq3 r5a r5b r2) 3 1 2 none, f2]
  simp only [h3]
  norm_num

/-- C5 witness: the general loop lemma at the concrete responses. -/
theorem C5_witness :
    executeRequestWithRetry (seq3 resp500 resp500 resp200) 3
      = (.ok resp200, [1000, 2000]) :=
  C5_retry_sequence_500_500_200.1 resp500 resp500 resp200 rfl rfl rfl

/-- C6: whenever the first transport answer is a 401 response (which the
retry loop returns immediately, 4xx being non-retryable), `request` throws
an `ApiError` with status 401 to its caller and the final secure storage
holds neither `auth_token` nor `user_data`, whatever was stored before. -/
theorem C6_401_clears_credentials (store : LocalStorage) (cache : Cache)
    (retries : Nat) (fetches : Nat → FetchOutcome) (r : MockResponse)
    (hf : fetches 0 = .ok r) (h401 : r.status = 401) :
    (∃ e : ApiError,
      (request store emptyRL cache 0 "/e" "POST" false retries fetches).result
        = .error (.apiError e) ∧ e.status = 401) ∧
    (request store emptyRL cache 0 "/e" "POST" false retries fetches).store
      "auth_token" = none ∧
    (request store emptyRL cache 0 "/e" "POST" false retries fetches).store
      "user_data" = none := by
  have hloop : executeRequestWithRetry fetches retries = (.ok r, []) := by
    show retryLoop fetches retries (retries + 1) 0 none [] = (.ok r, [])
    rw [retryLoop_step, hf]
    simp only [h401]
    norm_num
  have hok : responseOk r = false := by
    simp [responseOk, h401]
  have hreq : request store emptyRL cache 0 "/e" "POST" false retries fetches =
      { result := .error (.apiError
          (handleErrorResponse ((SecureStorage.getItem store 0 "auth_token").2) r).1)
        store := (handleErrorResponse ((SecureStorage.getItem store 0 "auth_token").2) r).2
        rl := rlUpdate emptyRL "/e" ⟨1, 0 + 60000⟩
        cache := cache
        delays := [] } := by
    simp only [request, isRequestAllowed, emptyRL, hloop, hok]
    norm_num
  rw [hreq]
  refine ⟨⟨(handleErrorResponse ((SecureStorage.getItem store 0 "auth_token").2) r).1,
    rfl, ?_⟩, ?_, ?_⟩
  · simp [handleErrorResponse, h401]
  · simp [handleErrorResponse, h401, SecureStorage.removeItem, storeUpdate]
  · simp [handleErrorResponse, h401, SecureStorage.removeItem, storeUpdate]

/-- C6 witness: a concrete 401 over empty stores. -/
theorem C6_witness :
    (∃ e : ApiError,
      (request emptyStore emptyRL emptyCache 0 "/e" "POST" false 0
          (fun _ => .ok resp401)).result = .error (.apiError e) ∧ e.status = 401) ∧
    (request emptyStore emptyRL emptyCache 0 "/e" "POST" false 0
        (fun _ => .ok resp401)).store "auth_token" = none ∧
    (request emptyStore emptyRL emptyCache 0 "/e" "POST" false 0
        (fun _ => .ok resp401)).store "user_data" = none :=
  C6_401_clears_credentials emptyStore emptyCache 0 (fun _ => .ok resp401)
    resp401 rfl rfl

end L3arn
